import Mathlib

/-!
Shallow embedding of the bonding-curve pricing engine of
`bondingcurve.py`: the summation kernel, the discrete per-unit price
engine, the fee computation of the price analysis, and the bounds guard
of the weight-calibration objective.  Python integers are unbounded, so
supplies, amounts and prices are embedded as `Nat` (for the nonnegative
domain on which the engine is used) or as `Int` (for the behaviour of
the engine on negative inputs); Python `//` on nonnegative operands is
`Nat` division.
-/

namespace BondingCurve

/-- OCTA = 100_000_000, the 10^8 scaling for APT prices. -/
def OCTA : Nat := 100000000

/-- INPUT_SCALE = 1_000_000 (declared in the source; the discrete engine does not use it). -/
def INPUT_SCALE : Nat := 1000000

/-- INITIAL_PRICE = 100_000_000 : 1 APT in OCTA units. -/
def INITIAL_PRICE : Nat := 100000000

/-- BPS = 10000 : 100% in basis points. -/
def BPS : Nat := 10000

/-- The weight configuration (DEFAULT_WEIGHT_A, DEFAULT_WEIGHT_B, DEFAULT_WEIGHT_C)
of `bondingcurve.py`, passed explicitly instead of through Python globals. -/
structure Weights where
  a : Nat
  b : Nat
  c : Nat

/-- Function `calculate_summation` from `bondingcurve.py`.  The Python mutation of the
local variables `mut_inner_sum`, `mut_n` and `mut_result` is unrolled into
single-assignment form: `mut_inner_sum₁` is the value of `mut_inner_sum` after
the try-divide-by-2 step, `mut_inner_sum₂` after the try-divide-by-3 step, and
likewise for `mut_n` and `mut_result`. -/
def calculate_summation (n : Nat) : Nat :=
  if n = 0 then 0
  else
    let n_squared := n * n
    let two_n_squared := 2 * n_squared
    let three_n := 3 * n
    let inner_sum := two_n_squared + three_n + 1
    let mut_inner_sum₁ := if inner_sum % 2 = 0 then inner_sum / 2 else inner_sum
    let mut_n₁ := if inner_sum % 2 = 0 then n else if n % 2 = 0 then n / 2 else n
    let mut_inner_sum₂ := if mut_inner_sum₁ % 3 = 0 then mut_inner_sum₁ / 3 else mut_inner_sum₁
    let mut_n₂ := if mut_inner_sum₁ % 3 = 0 then mut_n₁
      else if mut_n₁ % 3 = 0 then mut_n₁ / 3 else mut_n₁
    let mut_result := mut_n₂ * mut_inner_sum₂
    let mut_result₂ := if inner_sum % 2 ≠ 0 ∧ n % 2 ≠ 0 then mut_result / 2 else mut_result
    if inner_sum % 3 ≠ 0 ∧ n % 3 ≠ 0 then mut_result₂ / 3 else mut_result₂

/-- Function `calculate_single_pass_price` from `bondingcurve.py`: the price of one
unit at a given supply level, with the first-unit and degenerate-offset
short-circuits and the floor at INITIAL_PRICE. -/
def calculate_single_pass_price (w : Weights) (supply : Nat) : Nat :=
  if supply = 0 then INITIAL_PRICE
  else
    let s_plus_c := supply + w.c
    if s_plus_c ≤ 1 then INITIAL_PRICE
    else
      let n := s_plus_c - 1
      let s := calculate_summation n
      let weighted_a := s * w.a / BPS
      let weighted_b := weighted_a * w.b / BPS
      let price := weighted_b * OCTA
      max INITIAL_PRICE price

/-- Function `calculate_price` from `bondingcurve.py`: the Python
`for i in range(amount)` loop accumulating one single-pass price per unit,
with the sell-side underflow clamp `if supply <= i + 1 then 0`. -/
def calculate_price (w : Weights) (supply amount : Nat) (is_sell : Bool) : Nat :=
  (List.range amount).foldl
    (fun total i =>
      let current_supply :=
        if is_sell then
          if supply ≤ i + 1 then 0 else supply - i - 1
        else supply + i
      total + calculate_single_pass_price w current_supply) 0

/-- Claimed single-unit price formula of C2, as literally stated: no OCTA
scaling of the weighted summation before the floor is applied. -/
def single_pass_price_claimed (w : Weights) (supply : Nat) : Nat :=
  if supply = 0 ∨ supply + w.c ≤ 1 then INITIAL_PRICE
  else max INITIAL_PRICE (calculate_summation (supply + w.c - 1) * w.a / BPS * w.b / BPS)

/-- Amended single-unit price formula for C2: identical to the claimed one
except that the weighted summation is scaled by OCTA before the floor. -/
def single_pass_price_amended (w : Weights) (supply : Nat) : Nat :=
  if supply = 0 ∨ supply + w.c ≤ 1 then INITIAL_PRICE
  else max INITIAL_PRICE (calculate_summation (supply + w.c - 1) * w.a / BPS * w.b / BPS * OCTA)

/-- Spec-side discrete pricing of C5: the sum of single-unit prices at the
levels the spec names, `supply + i` for Buy and `supply - (i+1)` for Sell.
`Nat` subtraction clamps `supply - (i+1)` at 0, which is exactly the
spec's rule that a unit whose level would underflow is priced at level 0. -/
def discrete_price_spec (w : Weights) (supply amount : Nat) (is_sell : Bool) : Nat :=
  if is_sell then ∑ i ∈ Finset.range amount, calculate_single_pass_price w (supply - (i + 1))
  else ∑ i ∈ Finset.range amount, calculate_single_pass_price w (supply + i)

/-- Protocol fee of `print_price_analysis` in OCTA units before the display
conversion: `(price_in_octa * 4) // 100`, i.e. 4%. -/
def protocol_fee_octa (price_in_octa : Nat) : Nat := price_in_octa * 4 / 100

/-- Subject (beneficiary) fee of `print_price_analysis` in OCTA units before
the display conversion: `(price_in_octa * 8) // 100`, i.e. 8%. -/
def subject_fee_octa (price_in_octa : Nat) : Nat := price_in_octa * 8 / 100

/-- Total cost of `print_price_analysis`: the base price plus the two fees
(the source adds the same three quantities after dividing each by OCTA for
display at the boundary; the integer fixed-point domain is kept here). -/
def total_cost_octa (p : Nat) : Nat := p + protocol_fee_octa p + subject_fee_octa p

/-- Version of `calculate_single_pass_price` on Python integers of either sign.  Every
negative level satisfies `s_plus_c ≤ 1` (or is filtered by `supply = 0`)
whenever it reaches the guard, and on the remaining path `s_plus_c - 1 ≥ 1`,
so the summation argument is the nonnegative integer `(s_plus_c - 1).toNat`
and all divisions act on nonnegative operands, where Python floor division
agrees with `Nat` division. -/
def calculate_single_pass_priceZ (w : Weights) (supply : Int) : Int :=
  if supply = 0 then (INITIAL_PRICE : Int)
  else
    let s_plus_c := supply + (w.c : Int)
    if s_plus_c ≤ 1 then (INITIAL_PRICE : Int)
    else
      let n := s_plus_c - 1
      let s := calculate_summation n.toNat
      let weighted_a := s * w.a / BPS
      let weighted_b := weighted_a * w.b / BPS
      let price := weighted_b * OCTA
      max (INITIAL_PRICE : Int) (price : Int)

/-- Version of `calculate_price` on Python integers: Python's `range(amount)` is empty
for any nonpositive `amount`, so the loop runs `amount.toNat` times. -/
def calculate_priceZ (w : Weights) (supply amount : Int) (is_sell : Bool) : Int :=
  (List.range amount.toNat).foldl
    (fun total i =>
      let current_supply :=
        if is_sell then
          if supply ≤ (i : Int) + 1 then 0 else supply - (i : Int) - 1
        else supply + (i : Int)
      total + calculate_single_pass_priceZ w current_supply) 0

/-- Result of one objective evaluation of `BondingCurveOptimizer`.  The
floating-point scoring arithmetic is abstracted: the `finite` branch records
the integer single-unit prices the evaluation computes (the target
checkpoints, the early-accessibility range, the progression checks and the
smoothness range all lie within supplies 1..100), while the out-of-bounds
branch is the `infinite` score and computes no prices. -/
inductive ObjectiveScore where
  | infinite : ObjectiveScore
  | finite : List Nat → ObjectiveScore

/-- Guarded objective `objective_function` of `BondingCurveOptimizer`: candidate weight triples
are real (floating-point) values, embedded as rationals; the constraint check
`100 <= weight_a <= 5000 and 100 <= weight_b <= 5000 and 1 <= weight_c <= 10`
returns the infinite score when violated, before any price is evaluated;
otherwise the weights are truncated to integers (Python `int()`, which is
`floor` on these positive values) and the per-unit prices are computed. -/
def objective_function (weight_a weight_b weight_c : ℚ) : ObjectiveScore :=
  if ¬(100 ≤ weight_a ∧ weight_a ≤ 5000 ∧ 100 ≤ weight_b ∧ weight_b ≤ 5000 ∧
      1 ≤ weight_c ∧ weight_c ≤ 10) then
    ObjectiveScore.infinite
  else
    let w : Weights := ⟨⌊weight_a⌋.toNat, ⌊weight_b⌋.toNat, ⌊weight_c⌋.toNat⟩
    ObjectiveScore.finite ((List.range 100).map fun i => calculate_price w (i + 1) 1 false)

/-- Division bookkeeping: dividing 3 out of the left factor and 2 out of the right. -/
lemma div_three_mul_div_two (a b : Nat) (ha : 3 ∣ a) (hb : 2 ∣ b) :
    a / 3 * (b / 2) = a * b / 6 := by
  rw [Nat.div_mul_div_comm ha hb]

/-- Division bookkeeping: dividing 6 out of the right factor in two steps. -/
lemma mul_div_two_div_three (a b : Nat) (hb : 6 ∣ b) :
    a * (b / 2 / 3) = a * b / 6 := by
  rw [Nat.div_div_eq_div_mul]
  exact (Nat.mul_div_assoc a hb).symm

/-- Division bookkeeping: dividing 6 out of the left factor in two steps. -/
lemma div_two_div_three_mul (a b : Nat) (ha : 6 ∣ a) :
    a / 2 / 3 * b = a * b / 6 := by
  rw [Nat.div_div_eq_div_mul]
  have h := Nat.div_mul_div_comm ha (Nat.one_dvd b)
  simpa using h

/-- Division bookkeeping: dividing 2 out of the left factor and 3 out of the right. -/
lemma div_two_mul_div_three (a b : Nat) (ha : 2 ∣ a) (hb : 3 ∣ b) :
    a / 2 * (b / 3) = a * b / 6 := by
  rw [Nat.div_mul_div_comm ha hb]

set_option maxHeartbeats 1600000 in
/-- Closed form of the summation kernel: the try-2-then-3 factoring reshuffle
computes exactly the integer value of the summation formula. -/
lemma calculate_summation_closed_form (n : Nat) :
    calculate_summation n = n * (n + 1) * (2 * n + 1) / 6 := by
  by_cases hn : n = 0
  · subst hn; decide
  have hprod : n * (n + 1) * (2 * n + 1) = n * (2 * (n * n) + 3 * n + 1) := by ring
  rw [hprod]
  have c2 : n % 2 = 0 ∧ n * n % 2 = 0 ∨ n % 2 = 1 ∧ n * n % 2 = 1 := by
    have h := Nat.mul_mod n n 2
    rcases Nat.mod_two_eq_zero_or_one n with h2 | h2 <;> rw [h2] at h <;>
      norm_num at h <;> omega
  have c3 : n % 3 = 0 ∧ n * n % 3 = 0 ∨ n % 3 ≠ 0 ∧ n * n % 3 = 1 := by
    have h := Nat.mul_mod n n 3
    have h3 : n % 3 = 0 ∨ n % 3 = 1 ∨ n % 3 = 2 := by omega
    rcases h3 with h3 | h3 | h3 <;> rw [h3] at h <;> norm_num at h <;> omega
  simp only [calculate_summation]
  split_ifs <;> try omega
  all_goals try
    exact div_three_mul_div_two n _ (Nat.dvd_of_mod_eq_zero (by omega))
      (Nat.dvd_of_mod_eq_zero (by omega))
  all_goals try
    exact mul_div_two_div_three n _ (Nat.dvd_of_mod_eq_zero (by omega))
  all_goals try
    exact div_two_div_three_mul n _ (Nat.dvd_of_mod_eq_zero (by omega))
  all_goals
    exact div_two_mul_div_three n _ (Nat.dvd_of_mod_eq_zero (by omega))
      (Nat.dvd_of_mod_eq_zero (by omega))

/-- The summation kernel is monotone, by its closed form. -/
lemma calculate_summation_mono {m n : Nat} (h : m ≤ n) :
    calculate_summation m ≤ calculate_summation n := by
  rw [calculate_summation_closed_form, calculate_summation_closed_form]
  exact Nat.div_le_div_right (Nat.mul_le_mul (Nat.mul_le_mul h (by omega)) (by omega))

/-- Every single-pass price is at least the INITIAL_PRICE floor. -/
lemma initial_price_le_single_pass (w : Weights) (supply : Nat) :
    INITIAL_PRICE ≤ calculate_single_pass_price w supply := by
  simp only [calculate_single_pass_price]
  split_ifs
  · exact le_refl _
  · exact le_refl _
  · exact le_max_left _ _

/-- The single-pass price is monotone in the supply level, for any weights. -/
lemma single_pass_mono (w : Weights) (supply : Nat) :
    calculate_single_pass_price w supply ≤ calculate_single_pass_price w (supply + 1) := by
  have hmul : ∀ {m n : Nat}, m ≤ n →
      calculate_summation m * w.a / BPS * w.b / BPS * OCTA ≤
        calculate_summation n * w.a / BPS * w.b / BPS * OCTA := by
    intro m n h
    exact mul_le_mul_right' (Nat.div_le_div_right (mul_le_mul_right'
      (Nat.div_le_div_right (mul_le_mul_right' (calculate_summation_mono h) w.a)) w.b)) OCTA
  simp only [calculate_single_pass_price]
  split_ifs with h1 h2 h3 h4 h5 h6 h7 h8
  · exact le_refl _
  · exact le_refl _
  · exact le_max_left _ _
  · exact le_refl _
  · exact le_refl _
  · exact le_max_left _ _
  · exact h7.elim
  · exact absurd h8 (by omega)
  · exact max_le_max (le_refl _) (hmul (by omega))

/-- The per-unit loop with `amount = 1` is one single-pass evaluation. -/
lemma calculate_price_one (w : Weights) (supply : Nat) :
    calculate_price w supply 1 false = calculate_single_pass_price w supply := by
  simp [calculate_price, List.range_succ]

/-- The buy-side loop sums single-pass prices at levels `supply + i`. -/
lemma calculate_price_buy_eq (w : Weights) (supply amount : Nat) :
    calculate_price w supply amount false =
      ∑ i ∈ Finset.range amount, calculate_single_pass_price w (supply + i) := by
  induction amount with
  | zero => rfl
  | succ a ih =>
    rw [Finset.sum_range_succ, ← ih]
    simp [calculate_price, List.range_succ]

/-- The sell-side underflow clamp computes the truncated subtraction. -/
lemma sell_level_eq (supply i : Nat) :
    (if supply ≤ i + 1 then 0 else supply - i - 1) = supply - (i + 1) := by
  split_ifs <;> omega

/-- The sell-side loop sums single-pass prices at levels `supply - (i+1)`. -/
lemma calculate_price_sell_eq (w : Weights) (supply amount : Nat) :
    calculate_price w supply amount true =
      ∑ i ∈ Finset.range amount, calculate_single_pass_price w (supply - (i + 1)) := by
  induction amount with
  | zero => rfl
  | succ a ih =>
    rw [Finset.sum_range_succ, ← ih]
    simp [calculate_price, List.range_succ, sell_level_eq]

/-- Every single-pass price is a multiple of OCTA: both branches return
either INITIAL_PRICE (= OCTA) or `weighted_b * OCTA`. -/
lemma octa_dvd_single_pass (w : Weights) (supply : Nat) :
    OCTA ∣ calculate_single_pass_price w supply := by
  have hIP : OCTA ∣ INITIAL_PRICE := ⟨1, by decide⟩
  simp only [calculate_single_pass_price]
  split_ifs
  · exact hIP
  · exact hIP
  · rcases max_choice INITIAL_PRICE
        (calculate_summation (supply + w.c - 1) * w.a / BPS * w.b / BPS * OCTA) with h | h <;>
      rw [h]
    · exact hIP
    · exact Dvd.intro_left _ rfl

/-- C1.  `calculate_summation n` is exactly `n (n+1) (2n+1) / 6` for every
nonnegative integer `n`: the try-2-then-3 factoring reshuffle loses no
precision (the division is exact since the product is always divisible by
6), and `calculate_summation 0 = 0`. -/
theorem calculate_summation_exact (n : Nat) :
    calculate_summation n = n * (n + 1) * (2 * n + 1) / 6 :=
  calculate_summation_closed_form n

/-- C2 counterexample.  With the optimizer's weights (350, 800, 1) at supply
level 25 the code returns 15 * OCTA = 1_500_000_000, while the claimed
formula, which omits the OCTA scaling, yields max(INITIAL_PRICE, 15) =
100_000_000. -/
theorem single_pass_price_claim_false :
    calculate_single_pass_price ⟨350, 800, 1⟩ 25 = 1500000000 ∧
      single_pass_price_claimed ⟨350, 800, 1⟩ 25 = 100000000 := by
  constructor <;> decide

/-- C2 amended.  `calculate_single_pass_price` returns INITIAL_PRICE when
`supply = 0` or `supply + weightC ≤ 1`, and otherwise
`max INITIAL_PRICE (summation (supply + weightC - 1) * weightA / BPS
* weightB / BPS * OCTA)`, with both basis-point divisions truncating. -/
theorem single_pass_price_eq_amended (w : Weights) (supply : Nat) :
    calculate_single_pass_price w supply = single_pass_price_amended w supply := by
  simp only [calculate_single_pass_price, single_pass_price_amended]
  split_ifs <;> first | rfl | omega

/-- C3.  For every supply and weights inside the valid bounds, the
single-unit buy price is monotonically non-decreasing in supply. -/
theorem buy_price_monotone (w : Weights) (supply : Nat)
    (ha : 100 ≤ w.a ∧ w.a ≤ 5000) (hb : 100 ≤ w.b ∧ w.b ≤ 5000)
    (hc : 1 ≤ w.c ∧ w.c ≤ 10) :
    calculate_price w supply 1 false ≤ calculate_price w (supply + 1) 1 false := by
  rw [calculate_price_one, calculate_price_one]
  exact single_pass_mono w supply

/-- Witness for C3 at weights (350, 800, 1) and supply 3. -/
theorem buy_price_monotone_witness :
    calculate_price ⟨350, 800, 1⟩ 3 1 false ≤ calculate_price ⟨350, 800, 1⟩ 4 1 false :=
  buy_price_monotone ⟨350, 800, 1⟩ 3 (by decide) (by decide) (by decide)

/-- C4 counterexample.  `amount = 0` is a no-op and the loop returns 0,
which is below the INITIAL_PRICE floor the claim asserts. -/
theorem price_floor_claim_false :
    ¬ INITIAL_PRICE ≤ calculate_price ⟨350, 800, 1⟩ 5 0 false := by decide

/-- C4 amended.  For every supply, every positive amount and either
direction, the returned price is at least INITIAL_PRICE (the `amount = 0`
no-op returns 0 instead). -/
theorem price_ge_initial_price (w : Weights) (supply amount : Nat) (is_sell : Bool)
    (h : 1 ≤ amount) :
    INITIAL_PRICE ≤ calculate_price w supply amount is_sell := by
  have key : ∀ lv : Nat → Nat,
      INITIAL_PRICE ≤ ∑ i ∈ Finset.range amount, calculate_single_pass_price w (lv i) := by
    intro lv
    obtain ⟨k, rfl⟩ : ∃ k, amount = k + 1 := ⟨amount - 1, by omega⟩
    rw [Finset.sum_range_succ']
    exact le_trans (initial_price_le_single_pass w (lv 0)) (Nat.le_add_left _ _)
  cases is_sell
  · rw [calculate_price_buy_eq]; exact key _
  · rw [calculate_price_sell_eq]; exact key _

/-- Witness for C4 (amended) at weights (350, 800, 1), supply 0, amount 1. -/
theorem price_ge_initial_price_witness :
    INITIAL_PRICE ≤ calculate_price ⟨350, 800, 1⟩ 0 1 false :=
  price_ge_initial_price ⟨350, 800, 1⟩ 0 1 false (by decide)

/-- C5.  The discrete-mode price is the sum of single-unit prices at exactly
the levels the spec names: `supply + i` (i < amount) for Buy and
`supply - (i+1)` for Sell, underflowing levels clamped to level 0. -/
theorem calculate_price_eq_discrete_spec (w : Weights) (supply amount : Nat)
    (is_sell : Bool) :
    calculate_price w supply amount is_sell = discrete_price_spec w supply amount is_sell := by
  cases is_sell
  · rw [calculate_price_buy_eq]; rfl
  · rw [calculate_price_sell_eq]; rfl

/-- C6.  The fee quote computes protocolFee = floor(p * 400 / 10000) (4%),
beneficiaryFee = floor(p * 800 / 10000) (8%), in the same atomic-unit
integer domain as p, and the total is exactly the base plus the two fees. -/
theorem fee_quote_correct (p : Nat) :
    protocol_fee_octa p = p * 400 / 10000 ∧
      subject_fee_octa p = p * 800 / 10000 ∧
      total_cost_octa p = p + protocol_fee_octa p + subject_fee_octa p := by
  refine ⟨?_, ?_, rfl⟩ <;> simp only [protocol_fee_octa, subject_fee_octa] <;> omega

/-- C7.  With weights (350, 800, 1): the first unit at supply 0 costs exactly
INITIAL_PRICE, and the unit at supply 14 costs strictly between 1 APT
(= OCTA) and 20 APT (= 20 * OCTA), the supply 1 and 25 checkpoints. -/
theorem concrete_scenario_checkpoints :
    calculate_price ⟨350, 800, 1⟩ 0 1 false = INITIAL_PRICE ∧
      OCTA < calculate_price ⟨350, 800, 1⟩ 14 1 false ∧
      calculate_price ⟨350, 800, 1⟩ 14 1 false < 20 * OCTA := by
  refine ⟨?_, ?_, ?_⟩ <;> decide

/-- C8 counterexample.  Negative inputs are not rejected: the engine computes
a result on them.  At supply -1, amount 2 (Buy) it prices both units at the
floor and returns 2 * INITIAL_PRICE; at amount -3 it returns 0.  No
InvalidInput error exists anywhere in the code. -/
theorem invalid_input_claim_false :
    calculate_priceZ ⟨350, 800, 1⟩ (-1) 2 false = 2 * (INITIAL_PRICE : Int) ∧
      calculate_priceZ ⟨350, 800, 1⟩ 5 (-3) false = 0 := by
  constructor <;> decide

/-- C8 amended.  The pricing code performs no input validation and has no
error path: a nonpositive amount makes the loop empty and the price 0, and a
negative supply level falls into the INITIAL_PRICE short-circuit whenever
`supply + weightC ≤ 1` instead of raising an error. -/
theorem price_engine_no_input_validation :
    (∀ (w : Weights) (supply amount : Int) (is_sell : Bool), amount ≤ 0 →
        calculate_priceZ w supply amount is_sell = 0) ∧
      (∀ (w : Weights) (supply : Int), supply < 0 → supply + (w.c : Int) ≤ 1 →
        calculate_single_pass_priceZ w supply = (INITIAL_PRICE : Int)) := by
  constructor
  · intro w supply amount is_sell h
    have ht : amount.toNat = 0 := Int.toNat_of_nonpos h
    simp [calculate_priceZ, ht]
  · intro w supply h1 h2
    simp only [calculate_single_pass_priceZ]
    rw [if_neg (by omega), if_pos h2]

/-- Witness for C8 (amended) at supply 2, amount -7, Sell. -/
theorem price_engine_no_input_validation_witness :
    calculate_priceZ ⟨350, 800, 1⟩ 2 (-7) true = 0 :=
  price_engine_no_input_validation.1 ⟨350, 800, 1⟩ 2 (-7) true (by decide)

/-- C9.  For every weight triple outside the declared bounds, the objective
evaluation returns the infinite score (a plain value, no error is raised),
and that branch evaluates no prices. -/
theorem objective_function_out_of_bounds (weight_a weight_b weight_c : ℚ)
    (h : ¬(100 ≤ weight_a ∧ weight_a ≤ 5000 ∧ 100 ≤ weight_b ∧ weight_b ≤ 5000 ∧
        1 ≤ weight_c ∧ weight_c ≤ 10)) :
    objective_function weight_a weight_b weight_c = ObjectiveScore.infinite := by
  simp only [objective_function]
  rw [if_pos h]

/-- Witness for C9 at the out-of-bounds triple (50, 800, 1). -/
theorem objective_function_out_of_bounds_witness :
    objective_function 50 800 1 = ObjectiveScore.infinite :=
  objective_function_out_of_bounds 50 800 1 (by norm_num)

/-- C10.  Every price returned by `calculate_price` is an integer multiple of
OCTA: each single-unit price is either INITIAL_PRICE (= OCTA) or
`weighted_b * OCTA`, and sums of multiples are multiples. -/
theorem octa_dvd_price (w : Weights) (supply amount : Nat) (is_sell : Bool) :
    OCTA ∣ calculate_price w supply amount is_sell := by
  cases is_sell
  · rw [calculate_price_buy_eq]
    exact Finset.dvd_sum fun i _ => octa_dvd_single_pass w _
  · rw [calculate_price_sell_eq]
    exact Finset.dvd_sum fun i _ => octa_dvd_single_pass w _

end BondingCurve
